import Mathlib

/-!
# raft-grpc-transport: `transport.go`

A shallow embedding of `Manager`, `New` and `Manager.Close` from
`src/transport.go`, and the properties of shutdown and construction
proved about it.

Conventions of the embedding.

* A Go map is iterated in an unspecified order.  The connections map is an
  association list; the order of the list is the order in which the `range`
  loop visits the handles.  Every statement is quantified over all lists,
  hence over every visiting order.
* Pointers are embedded by value: a `*conn` handle is the `conn` record that
  the map entry points to, and the `*grpc.ClientConn` of a handle is the
  state of the connection object it points to (`none` for the nil pointer).
  Each handle owns its own connection object.
* A `sync.Mutex` is its `locked` bit.  `Manager.Close` is run as one
  goroutine; an attempt to lock a mutex that is already held ends the run in
  the outcome `blocked`.
* `Manager.Close` returns, next to the Go result, the manager after the call
  and the trace of lock and close events it performed.
-/

namespace Transport

/-! ## Data model -/

/-- Type `raft.ServerID`, a string. -/
abbrev ServerID := String

/-- Type `raft.ServerAddress`, a string. -/
abbrev ServerAddress := String

/-- One `grpc.DialOption`; only its identity matters to `New`. -/
abbrev DialOption := String

/-- Type `time.Duration`, a signed count of nanoseconds. -/
abbrev Duration := Int

/-- The payload of one `raft.RPC` envelope. -/
structure RPC where
  command : String
deriving DecidableEq, Repr

/-- A Go channel of `raft.RPC`: its capacity, fixed by `make`, and the
envelopes currently buffered in it. -/
structure Chan where
  cap : Nat
  buf : List RPC
deriving DecidableEq, Repr

/-- The Go expression `make(chan raft.RPC, n)`; `make(chan raft.RPC)` is
`makeChan 0`, an unbuffered channel. -/
def makeChan (n : Nat) : Chan := { cap := n, buf := [] }

/-- A send on a channel while no receiver is ready.  Go completes the send at
once exactly when the buffer has room; otherwise the sender has to wait for a
receiver, which is the result `none`. -/
def Chan.sendNoReceiver (c : Chan) (v : RPC) : Option Chan :=
  if c.buf.length < c.cap then some { c with buf := c.buf ++ [v] } else none

/-- Enqueue the envelopes one after the other while no consumer receives;
`none` as soon as one of the sends would have to wait. -/
def Chan.enqueueAll (c : Chan) : List RPC → Option Chan
  | [] => some c
  | v :: vs =>
    match c.sendNoReceiver v with
    | none => none
    | some c1 => c1.enqueueAll vs

/-- A `sync.Mutex`. -/
structure Mutex where
  locked : Bool
deriving DecidableEq, Repr

/-- The mutex after a successful `Lock()`. -/
def Mutex.Lock (_ : Mutex) : Mutex := { locked := true }

/-- The mutex after `Unlock()` by its holder. -/
def Mutex.Unlock (_ : Mutex) : Mutex := { locked := false }

/-- A non-aggregate Go error value, identified by its message. -/
abbrev ErrorValue := String

/-- The state of one `grpc.ClientConn` as far as `Close()` is concerned:
whether it has been closed already, and the error its teardown reports when
it is closed for the first time (`none` for a nil error). -/
structure ClientConn where
  closed : Bool
  teardownErr : Option ErrorValue
deriving DecidableEq, Repr

/-- The error `grpc.ErrClientConnClosing`, returned by `Close()` on a
connection that was closed before. -/
def ErrClientConnClosing : ErrorValue := "grpc: the client connection is closing"

/-- Method `(*grpc.ClientConn).Close` on a non-nil connection: the
connection after the call and the error returned. -/
def ClientConn.Close (cc : ClientConn) : ClientConn × Option ErrorValue :=
  if cc.closed then (cc, some ErrClientConnClosing)
  else ({ cc with closed := true }, cc.teardownErr)

/-- Modelled from the spec: the connection handle type `conn` is declared
outside `transport.go`.  `Manager.Close` uses two fields of it: the
per-handle lock `mtx` and the client connection `clientConn`, which is absent
(`none`, the nil pointer) until a dial has succeeded. -/
structure conn where
  mtx : Mutex
  clientConn : Option ClientConn
deriving DecidableEq, Repr

/-- The package variable `errCloseErr`, the value of
`errors.New("error closing connections")`. -/
def errCloseErr : ErrorValue := "error closing connections"

/-- The Go `error` values that `Manager.Close` handles: a plain error, or a
`*multierror.Error` with its list of entries. -/
inductive GoError
  | plain (e : ErrorValue)
  | multi (errs : List ErrorValue)
deriving DecidableEq, Repr

/-- The call `multierror.Append(err, e)` for a plain, non-nil `e`: an
aggregate gets `e` appended; any other non-nil error becomes the first entry
of a new aggregate, followed by `e`. -/
def multierror.Append (err : GoError) (e : ErrorValue) : GoError :=
  match err with
  | GoError.multi errs => GoError.multi (errs ++ [e])
  | GoError.plain p => GoError.multi ([p] ++ [e])

/-- The heartbeat fast-path handler, `func(raft.RPC)`: a procedure on the
envelope, here the response it delivers for it. -/
abbrev HeartbeatFunc := RPC → String

/-- The struct `Manager`. -/
structure Manager where
  localAddress : ServerAddress
  dialOptions : List DialOption
  rpcChan : Chan
  heartbeatFunc : Option HeartbeatFunc
  heartbeatFuncMtx : Mutex
  heartbeatTimeout : Duration
  connectionsMtx : Mutex
  connections : List (ServerID × conn)

/-- Modelled from the spec: the type `Option` of `New`'s variadic argument is
declared outside `transport.go`.  `New` calls each option on the manager
under construction, so an option is a transformation of the manager. -/
abbrev ManagerOption := Manager → Manager

/-- An option that sets the heartbeat timeout of the manager and nothing
else. -/
def setHeartbeatTimeout (d : Duration) : ManagerOption :=
  fun m => { m with heartbeatTimeout := d }

/-- An option that installs a heartbeat fast-path handler and changes nothing
else. -/
def setHeartbeatFunc (f : HeartbeatFunc) : ManagerOption :=
  fun m => { m with heartbeatFunc := some f }

/-! ## `New` -/

/-- The loop `for _, opt := range options { opt(m) }`. -/
def applyOptions (m : Manager) : List ManagerOption → Manager
  | [] => m
  | opt :: rest => applyOptions (opt m) rest

/-- The function `New`: the struct literal with the fields it leaves out at
their zero values, then the options loop. -/
def New (localAddress : ServerAddress) (dialOptions : List DialOption)
    (options : List ManagerOption) : Manager :=
  applyOptions
    { localAddress := localAddress
      dialOptions := dialOptions
      rpcChan := makeChan 0
      heartbeatFunc := none
      heartbeatFuncMtx := { locked := false }
      heartbeatTimeout := 0
      connectionsMtx := { locked := false }
      connections := [] }
    options

/-- The base manager in the words of the specification: the given local
address and dial configuration, an empty connections map, no heartbeat
handler and a zero heartbeat timeout. -/
def specBaseManager (localAddress : ServerAddress) (dialOptions : List DialOption) :
    Manager :=
  { localAddress := localAddress
    dialOptions := dialOptions
    rpcChan := makeChan 0
    heartbeatFunc := none
    heartbeatFuncMtx := { locked := false }
    heartbeatTimeout := 0
    connectionsMtx := { locked := false }
    connections := [] }

/-- Construction in the words of the specification: the left fold of the
options over the base manager. -/
def specNew (localAddress : ServerAddress) (dialOptions : List DialOption)
    (options : List ManagerOption) : Manager :=
  options.foldl (fun m opt => opt m) (specBaseManager localAddress dialOptions)

/-! ## `Manager.Close` -/

/-- The lock and close events of one run of `Manager.Close`. -/
inductive Event
  | lockMap
  | unlockMap
  | lockConn (id : ServerID)
  | closeCall (id : ServerID)
  | unlockConn (id : ServerID)
deriving DecidableEq, Repr

/-- How the `range` loop of `Manager.Close` ends. -/
inductive LoopExit
  | done (err : GoError)
  | panicked
  | blocked
deriving DecidableEq, Repr

/-- How a call of `Manager.Close` ends: it returns an `error` (`none` is
nil), it panics on a nil pointer dereference, or it waits for a mutex. -/
inductive Outcome
  | returned (err : Option GoError)
  | panicked
  | blocked
deriving DecidableEq, Repr

/-- The loop `for _, conn := range m.connections { ... }` with the local
variable `err`: the way the loop ends, the handles after it and the events
it performed. -/
def closeLoop : List (ServerID × conn) → GoError →
    LoopExit × List (ServerID × conn) × List Event
  | [], err => (LoopExit.done err, [], [])
  | (id, c) :: rest, err =>
    if c.mtx.locked then (LoopExit.blocked, (id, c) :: rest, [])
    else
      -- conn.mtx.Lock()
      let c1 : conn := { c with mtx := c.mtx.Lock }
      -- closeErr := conn.clientConn.Close()
      match c1.clientConn with
      | none =>
        -- nil receiver: `Close` dereferences it and panics; `conn.mtx` stays locked
        (LoopExit.panicked, (id, c1) :: rest, [Event.lockConn id, Event.closeCall id])
      | some cc =>
        let c2 : conn := { c1 with clientConn := some cc.Close.1 }
        -- conn.mtx.Unlock()
        let c3 : conn := { c2 with mtx := c2.mtx.Unlock }
        -- if closeErr != nil { err = multierror.Append(err, closeErr) }
        let err1 : GoError :=
          match cc.Close.2 with
          | some closeErr => multierror.Append err closeErr
          | none => err
        let r := closeLoop rest err1
        (r.1, (id, c3) :: r.2.1,
          [Event.lockConn id, Event.closeCall id, Event.unlockConn id] ++ r.2.2)

/-- The result of running `Manager.Close`. -/
structure CloseResult where
  outcome : Outcome
  m : Manager
  trace : List Event

/-- The method `Manager.Close`.  The deferred `connectionsMtx.Unlock()` runs
when the function returns and when it panics. -/
def Manager.Close (m : Manager) : CloseResult :=
  if m.connectionsMtx.locked then { outcome := Outcome.blocked, m := m, trace := [] }
  else
    -- m.connectionsMtx.Lock()
    let m1 : Manager := { m with connectionsMtx := m.connectionsMtx.Lock }
    -- err := errCloseErr, then the loop
    let r := closeLoop m1.connections (GoError.plain errCloseErr)
    let m2 : Manager := { m1 with connections := r.2.1 }
    match r.1 with
    | LoopExit.blocked =>
      { outcome := Outcome.blocked, m := m2, trace := [Event.lockMap] ++ r.2.2 }
    | LoopExit.panicked =>
      { outcome := Outcome.panicked
        m := { m2 with connectionsMtx := m2.connectionsMtx.Unlock }
        trace := [Event.lockMap] ++ r.2.2 ++ [Event.unlockMap] }
    | LoopExit.done err =>
      { outcome := Outcome.returned (if err ≠ GoError.plain errCloseErr then some err else none)
        m := { m2 with connectionsMtx := m2.connectionsMtx.Unlock }
        trace := [Event.lockMap] ++ r.2.2 ++ [Event.unlockMap] }

/-! ## Vocabulary of the statements -/

/-- No lock of the manager is held: neither the map lock nor the lock of any
handle in the connections map. -/
def Manager.quiescent (m : Manager) : Bool :=
  !m.connectionsMtx.locked && m.connections.all (fun kv => !kv.2.mtx.locked)

/-- Every handle in the connections map holds a client connection. -/
def Manager.established (m : Manager) : Bool :=
  m.connections.all (fun kv => kv.2.clientConn.isSome)

/-- The error that `clientConn.Close()` returns for a handle in its current
state (`none` for a nil error); a handle without a connection returns
nothing. -/
def conn.closeErr (c : conn) : Option ErrorValue :=
  match c.clientConn with
  | none => none
  | some cc => cc.Close.2

/-- The handle after its connection, if it has one, received `Close()`. -/
def conn.afterClose (c : conn) : conn :=
  { c with clientConn := c.clientConn.map (fun cc => cc.Close.1) }

/-- The close errors of the failing handles, in visiting order. -/
def closeFailures (conns : List (ServerID × conn)) : List ErrorValue :=
  conns.filterMap (fun kv => kv.2.closeErr)

/-- The events of visiting one handle without a fault. -/
def handleEvents (id : ServerID) : List Event :=
  [Event.lockConn id, Event.closeCall id, Event.unlockConn id]

/-- The peers whose connection received a close call, in trace order. -/
def closeCalls : List Event → List ServerID
  | [] => []
  | Event.closeCall id :: es => id :: closeCalls es
  | _ :: es => closeCalls es

/-- The error that `Manager.Close` returns for a list of close failures. -/
def aggregate (fails : List ErrorValue) : Option GoError :=
  if fails = [] then none
  else some (GoError.multi (errCloseErr :: fails))

/-- The entries of a returned error: none for nil, the error itself for a
plain error, the entries of an aggregate. -/
def entries : Option GoError → List ErrorValue
  | none => []
  | some (GoError.plain e) => [e]
  | some (GoError.multi errs) => errs

/-! ## Lock bookkeeping over a trace -/

/-- The locks that the goroutine running `Manager.Close` holds at some point
of its trace: whether it holds the map lock `connectionsMtx`, and the peers
whose handle lock it holds. -/
structure Held where
  mapLock : Bool
  handles : List ServerID
deriving DecidableEq, Repr

/-- No lock is held. -/
def Held.free : Held := { mapLock := false, handles := [] }

/-- The locks held after one more event. -/
def Held.after (h : Held) : Event → Held
  | Event.lockMap => { h with mapLock := true }
  | Event.unlockMap => { h with mapLock := false }
  | Event.lockConn id => { h with handles := id :: h.handles }
  | Event.unlockConn id => { h with handles := h.handles.erase id }
  | Event.closeCall _ => h

/-- The locks held after a sequence of events. -/
def Held.afterAll (h : Held) : List Event → Held
  | [] => h
  | e :: es => (h.after e).afterAll es

/-- The lock discipline for one event: the map lock is taken while nothing
is held; a handle lock is taken only while the map lock is held and no other
handle lock is; a close call and the release of a handle lock happen while
exactly that handle lock is held; the map lock is released while held. -/
def Held.permits (h : Held) : Event → Bool
  | Event.lockMap => !h.mapLock && h.handles.isEmpty
  | Event.unlockMap => h.mapLock
  | Event.lockConn _ => h.mapLock && h.handles.isEmpty
  | Event.unlockConn id => decide (h.handles = [id])
  | Event.closeCall id => decide (h.handles = [id])

/-- Every event of the trace obeys the lock discipline at the point where it
happens. -/
def disciplined (h : Held) : List Event → Bool
  | [] => true
  | e :: es => h.permits e && disciplined (h.after e) es

/-! ## Sample managers -/

/-- A handle with a free lock and an open connection whose teardown reports
the given result. -/
def dialedHandle (teardownErr : Option ErrorValue) : conn :=
  { mtx := { locked := false }
    clientConn := some { closed := false, teardownErr := teardownErr } }

/-- A handle with a free lock that was never dialed, or whose dial failed:
its `clientConn` is nil. -/
def undialedHandle : conn :=
  { mtx := { locked := false }, clientConn := none }

/-- A manager as `New` builds it, with the given connections map. -/
def managerWith (conns : List (ServerID × conn)) : Manager :=
  { New "10.0.0.1:7000" ["creds"] [] with connections := conns }

/-- Three peers; the close of the second one fails. -/
def threePeers : Manager :=
  managerWith
    [("a", dialedHandle none), ("b", dialedHandle (some "reset")), ("c", dialedHandle none)]

/-- Three peers; the closes of the first and the last one fail. -/
def twoFailures : Manager :=
  managerWith
    [("a", dialedHandle (some "reset")), ("b", dialedHandle none),
     ("c", dialedHandle (some "timeout"))]

/-- One peer with an open connection whose close succeeds. -/
def onePeer : Manager := managerWith [("a", dialedHandle none)]

/-- A peer that was never dialed, followed by a peer with an open
connection. -/
def undialedFirst : Manager :=
  managerWith [("a", undialedHandle), ("b", dialedHandle none)]

/-! ## Lemmas on the loop -/

theorem append_fold_multi (l es : List ErrorValue) :
    es.foldl multierror.Append (GoError.multi l) = GoError.multi (l ++ es) := by
  induction es generalizing l with
  | nil => simp
  | cons e es ih => simp [List.foldl_cons, multierror.Append, ih]

theorem append_fold_sentinel (es : List ErrorValue) :
    es.foldl multierror.Append (GoError.plain errCloseErr)
      = if es = [] then GoError.plain errCloseErr
        else GoError.multi (errCloseErr :: es) := by
  cases es with
  | nil => simp
  | cons e es =>
    simp [List.foldl_cons, multierror.Append, append_fold_multi]

theorem mutex_eq_of_unlocked (x : Mutex) (h : x.locked = false) : x = { locked := false } := by
  cases x
  simp_all

theorem closeLoop_ready (conns : List (ServerID × conn)) (err : GoError)
    (hl : conns.all (fun kv => !kv.2.mtx.locked) = true)
    (he : conns.all (fun kv => kv.2.clientConn.isSome) = true) :
    closeLoop conns err
      = (LoopExit.done ((closeFailures conns).foldl multierror.Append err),
         conns.map (fun kv => (kv.1, kv.2.afterClose)),
         (conns.map (fun kv => handleEvents kv.1)).flatten) := by
  induction conns generalizing err with
  | nil => simp [closeLoop, closeFailures]
  | cons kv rest ih =>
    obtain ⟨id, c⟩ := kv
    obtain ⟨mtx, cco⟩ := c
    simp only [List.all_cons, Bool.and_eq_true, Bool.not_eq_true'] at hl he
    obtain ⟨hl1, hl2⟩ := hl
    obtain ⟨he1, he2⟩ := he
    cases cco with
    | none => simp at he1
    | some cc =>
      have hm := mutex_eq_of_unlocked mtx hl1
      subst hm
      cases hcl : cc.Close.2 with
      | none =>
        simp [closeLoop, ih _ hl2 he2, closeFailures, conn.closeErr, conn.afterClose,
          Mutex.Lock, Mutex.Unlock, handleEvents, hcl]
      | some e =>
        simp [closeLoop, ih _ hl2 he2, closeFailures, conn.closeErr, conn.afterClose,
          Mutex.Lock, Mutex.Unlock, handleEvents, hcl]

/-- The full description of a call of `Manager.Close` on a quiescent manager
whose handles all hold a connection. -/
theorem Close_ready (m : Manager) (hq : m.quiescent = true) (he : m.established = true) :
    m.Close.outcome = Outcome.returned (aggregate (closeFailures m.connections))
    ∧ m.Close.m = { m with connections := m.connections.map (fun kv => (kv.1, kv.2.afterClose)) }
    ∧ m.Close.trace
        = [Event.lockMap] ++ (m.connections.map (fun kv => handleEvents kv.1)).flatten
            ++ [Event.unlockMap] := by
  simp only [Manager.quiescent, Bool.and_eq_true, Bool.not_eq_true'] at hq
  obtain ⟨hq1, hq2⟩ := hq
  have hloop := closeLoop_ready m.connections (GoError.plain errCloseErr) hq2 he
  have hm := mutex_eq_of_unlocked m.connectionsMtx hq1
  refine ⟨?_, ?_, ?_⟩
  · simp only [Manager.Close, hq1, hloop, append_fold_sentinel, aggregate]
    by_cases h : closeFailures m.connections = [] <;> simp [h]
  · simp only [Manager.Close, hq1, hloop]
    simp [Mutex.Unlock, ← hm]
  · simp [Manager.Close, hq1, hloop]

theorem closeFailures_eq_nil_iff (conns : List (ServerID × conn)) :
    closeFailures conns = [] ↔ ∀ kv ∈ conns, kv.2.closeErr = none := by
  induction conns with
  | nil => simp [closeFailures]
  | cons kv rest ih =>
    simp only [closeFailures] at ih
    cases h : kv.2.closeErr <;> simp [closeFailures, List.filterMap_cons, h, ih]

theorem closeFailures_length (conns : List (ServerID × conn)) :
    (closeFailures conns).length = conns.countP (fun kv => kv.2.closeErr.isSome) := by
  induction conns with
  | nil => simp [closeFailures]
  | cons kv rest ih =>
    simp only [closeFailures] at ih
    cases h : kv.2.closeErr <;> simp [closeFailures, List.filterMap_cons, h, ih, List.countP_cons]

theorem mem_closeFailures (conns : List (ServerID × conn)) (e : ErrorValue) :
    e ∈ closeFailures conns ↔ ∃ kv ∈ conns, kv.2.closeErr = some e := by
  simp [closeFailures, List.mem_filterMap]

theorem closeCalls_append (a b : List Event) :
    closeCalls (a ++ b) = closeCalls a ++ closeCalls b := by
  induction a with
  | nil => simp [closeCalls]
  | cons e es ih => cases e <;> simp [closeCalls, ih]

theorem closeCalls_handles (conns : List (ServerID × conn)) :
    closeCalls (conns.map (fun kv => handleEvents kv.1)).flatten = conns.map Prod.fst := by
  induction conns with
  | nil => simp [closeCalls]
  | cons kv rest ih =>
    simp only [List.map_cons, List.flatten_cons, closeCalls_append, ih]
    simp [handleEvents, closeCalls]

/-! ## Shutdown: result, aggregate and close attempts -/

/-- C1: on a quiescent manager whose handles all hold a connection,
`Manager.Close` returns; it returns nil exactly when the close of every handle
in the map returned no error, it returns a non-nil error exactly when the
close of at least one handle returned an error, and on an empty map it returns
nil. -/
theorem Close_nil_iff_every_close_succeeded (m : Manager)
    (hq : m.quiescent = true) (he : m.established = true) :
    (∃ r, m.Close.outcome = Outcome.returned r)
    ∧ (m.Close.outcome = Outcome.returned none
        ↔ ∀ kv ∈ m.connections, kv.2.closeErr = none)
    ∧ ((∃ e, m.Close.outcome = Outcome.returned (some e))
        ↔ ∃ kv ∈ m.connections, kv.2.closeErr ≠ none)
    ∧ (m.connections = [] → m.Close.outcome = Outcome.returned none) := by
  obtain ⟨hout, -, -⟩ := Close_ready m hq he
  have hnil := closeFailures_eq_nil_iff m.connections
  refine ⟨⟨_, hout⟩, ?_, ?_, ?_⟩
  · rw [hout, ← hnil]
    by_cases h : closeFailures m.connections = [] <;> simp [aggregate, h]
  · rw [hout]
    have hne : (∃ kv ∈ m.connections, kv.2.closeErr ≠ none)
        ↔ ¬ closeFailures m.connections = [] := by
      rw [hnil]
      push_neg
      rfl
    rw [hne]
    by_cases h : closeFailures m.connections = [] <;> simp [aggregate, h]
  · intro hempty
    rw [hout, hempty]
    simp [closeFailures, aggregate]

/-- Witness of C1 on three peers of which the second fails to close. -/
theorem Close_nil_iff_every_close_succeeded_witness :
    threePeers.quiescent = true ∧ threePeers.established = true
    ∧ (∃ e, threePeers.Close.outcome = Outcome.returned (some e)) :=
  ⟨rfl, rfl,
    (Close_nil_iff_every_close_succeeded threePeers rfl rfl).2.2.1.mpr
      ⟨("b", dialedHandle (some "reset")), by simp [threePeers, managerWith],
        by simp [dialedHandle, conn.closeErr, ClientConn.Close]⟩⟩

/-- C2: when at least one close fails, the error `Manager.Close` returns is
the aggregate whose entries are `errCloseErr` followed by the close errors of
exactly the failing handles, in the order the handles were visited; it has one
entry more than there are failing handles, every entry after the first is the
close error of a handle, and the close error of every failing handle is an
entry. -/
theorem Close_aggregate_holds_every_failure (m : Manager)
    (hq : m.quiescent = true) (he : m.established = true)
    (hf : ∃ kv ∈ m.connections, kv.2.closeErr ≠ none) :
    m.Close.outcome
        = Outcome.returned (some (GoError.multi (errCloseErr :: closeFailures m.connections)))
    ∧ closeFailures m.connections = m.connections.filterMap (fun kv => kv.2.closeErr)
    ∧ (errCloseErr :: closeFailures m.connections).length
        = m.connections.countP (fun kv => kv.2.closeErr.isSome) + 1
    ∧ (∀ e, e ∈ closeFailures m.connections ↔ ∃ kv ∈ m.connections, kv.2.closeErr = some e) := by
  obtain ⟨hout, -, -⟩ := Close_ready m hq he
  have hne : ¬ closeFailures m.connections = [] := by
    rw [closeFailures_eq_nil_iff]
    push_neg
    exact hf
  refine ⟨?_, rfl, ?_, mem_closeFailures m.connections⟩
  · rw [hout]
    simp [aggregate, hne]
  · simp [closeFailures_length]

/-- Witness of C2 on three peers of which the first and the last fail to
close. -/
theorem Close_aggregate_holds_every_failure_witness :
    twoFailures.Close.outcome
      = Outcome.returned (some (GoError.multi [errCloseErr, "reset", "timeout"])) :=
  (Close_aggregate_holds_every_failure twoFailures rfl rfl
    ⟨("a", dialedHandle (some "reset")), by simp [twoFailures, managerWith],
      by simp [dialedHandle, conn.closeErr, ClientConn.Close]⟩).1

/-- C3: on a quiescent manager whose handles all hold a connection, one call
of `Manager.Close` calls close on the handles of the map one by one in
visiting order, whichever closes fail: the peers whose connection received a
close call are the peers of the map, so there are as many close calls as
handles, all handles after a failing one are among them, and when the peers
are pairwise distinct each one receives exactly one call. -/
theorem Close_attempts_every_handle (m : Manager)
    (hq : m.quiescent = true) (he : m.established = true) :
    closeCalls m.Close.trace = m.connections.map Prod.fst
    ∧ (closeCalls m.Close.trace).length = m.connections.length
    ∧ (∀ before kv after, m.connections = before ++ kv :: after → kv.2.closeErr ≠ none →
        ∀ kv1 ∈ after, kv1.1 ∈ closeCalls m.Close.trace)
    ∧ ((m.connections.map Prod.fst).Nodup →
        ∀ kv ∈ m.connections, (closeCalls m.Close.trace).count kv.1 = 1) := by
  obtain ⟨-, -, htr⟩ := Close_ready m hq he
  have hcalls : closeCalls m.Close.trace = m.connections.map Prod.fst := by
    rw [htr]
    simp [closeCalls_append, closeCalls, closeCalls_handles]
  refine ⟨hcalls, ?_, ?_, ?_⟩
  · simp [hcalls]
  · intro before kv after hsplit _ kv1 hmem
    rw [hcalls, hsplit]
    simp only [List.map_append, List.map_cons, List.mem_append, List.mem_cons, List.mem_map]
    exact Or.inr (Or.inr ⟨kv1, hmem, rfl⟩)
  · intro hnd kv hmem
    rw [hcalls]
    exact List.count_eq_one_of_mem hnd (List.mem_map_of_mem _ hmem)

/-- Witness of C3 on three peers of which the second fails to close. -/
theorem Close_attempts_every_handle_witness :
    closeCalls threePeers.Close.trace = ["a", "b", "c"] :=
  (Close_attempts_every_handle threePeers rfl rfl).1

/-! ## Shutdown: frame, second call, handles without a connection -/

theorem closeLoop_done_ready (conns : List (ServerID × conn)) (err e : GoError)
    (h : (closeLoop conns err).1 = LoopExit.done e) :
    conns.all (fun kv => !kv.2.mtx.locked) = true
    ∧ conns.all (fun kv => kv.2.clientConn.isSome) = true := by
  induction conns generalizing err with
  | nil => simp
  | cons kv rest ih =>
    obtain ⟨id, c⟩ := kv
    obtain ⟨mtx, cco⟩ := c
    cases hl : mtx.locked with
    | true => simp [closeLoop, hl] at h
    | false =>
      cases cco with
      | none => simp [closeLoop, hl] at h
      | some cc =>
        simp only [closeLoop, hl, Bool.false_eq_true, if_false] at h
        have := ih _ h
        simp [hl, this.1, this.2]

theorem Close_returned_ready (m : Manager) (r : Option GoError)
    (h : m.Close.outcome = Outcome.returned r) :
    m.quiescent = true ∧ m.established = true := by
  cases hl : m.connectionsMtx.locked with
  | true => simp [Manager.Close, hl] at h
  | false =>
    simp only [Manager.Close, hl, Bool.false_eq_true, if_false] at h
    cases hx : (closeLoop m.connections (GoError.plain errCloseErr)).1 with
    | blocked => simp [hx] at h
    | panicked => simp [hx] at h
    | done e =>
      have := closeLoop_done_ready _ _ _ hx
      simp [Manager.quiescent, Manager.established, hl, this.1, this.2]

theorem afterClose_closeErr (c : conn) (h : c.clientConn.isSome = true) :
    c.afterClose.closeErr = some ErrClientConnClosing := by
  obtain ⟨mtx, cco⟩ := c
  cases cco with
  | none => simp at h
  | some cc =>
    cases hc : cc.closed <;> simp [conn.afterClose, conn.closeErr, ClientConn.Close, hc]

theorem closeFailures_afterClose (conns : List (ServerID × conn))
    (he : conns.all (fun kv => kv.2.clientConn.isSome) = true) :
    closeFailures (conns.map (fun kv => (kv.1, kv.2.afterClose)))
      = List.replicate conns.length ErrClientConnClosing := by
  induction conns with
  | nil => simp [closeFailures]
  | cons kv rest ih =>
    simp only [List.all_cons, Bool.and_eq_true] at he
    simp only [closeFailures] at ih
    simp [closeFailures, List.filterMap_cons, afterClose_closeErr kv.2 he.1, ih he.2,
      List.replicate_succ]

theorem Close_ready_after (m : Manager) (hq : m.quiescent = true) (he : m.established = true) :
    m.Close.m.quiescent = true ∧ m.Close.m.established = true := by
  obtain ⟨-, hm, -⟩ := Close_ready m hq he
  rw [hm]
  simp only [Manager.quiescent, Manager.established, Bool.and_eq_true, Bool.not_eq_true',
    List.all_eq_true, List.mem_map] at hq he ⊢
  refine ⟨⟨hq.1, ?_⟩, ?_⟩
  · rintro kv ⟨kv0, hmem, rfl⟩
    simpa [conn.afterClose] using hq.2 kv0 hmem
  · rintro kv ⟨kv0, hmem, rfl⟩
    simpa [conn.afterClose] using he kv0 hmem

/-- C10: whenever `Manager.Close` returns, with nil or with an error, the
manager afterwards has the local address, dial options, hand-off channel,
heartbeat handler, heartbeat timeout and locks it had before, and its
connections map holds the same peers in the same places, each mapped to the
handle it had before: the lock of the handle is in the state it was in, its
`clientConn` is still present, and the only difference is that the connection
it refers to has received `Close()`. -/
theorem Close_leaves_manager_state (m : Manager) (r : Option GoError)
    (h : m.Close.outcome = Outcome.returned r) :
    m.Close.m.localAddress = m.localAddress
    ∧ m.Close.m.dialOptions = m.dialOptions
    ∧ m.Close.m.rpcChan = m.rpcChan
    ∧ m.Close.m.heartbeatFunc = m.heartbeatFunc
    ∧ m.Close.m.heartbeatFuncMtx = m.heartbeatFuncMtx
    ∧ m.Close.m.heartbeatTimeout = m.heartbeatTimeout
    ∧ m.Close.m.connectionsMtx = m.connectionsMtx
    ∧ m.Close.m.connections = m.connections.map (fun kv => (kv.1, kv.2.afterClose))
    ∧ m.Close.m.connections.map Prod.fst = m.connections.map Prod.fst
    ∧ m.Close.m.connections.map (fun kv => kv.2.mtx) = m.connections.map (fun kv => kv.2.mtx)
    ∧ m.Close.m.connections.map (fun kv => kv.2.clientConn.isSome)
        = m.connections.map (fun kv => kv.2.clientConn.isSome) := by
  obtain ⟨hq, he⟩ := Close_returned_ready m r h
  obtain ⟨-, hm, -⟩ := Close_ready m hq he
  rw [hm]
  refine ⟨rfl, rfl, rfl, rfl, rfl, rfl, rfl, rfl, ?_, ?_, ?_⟩
  · simp [List.map_map, Function.comp_def]
  · simp [List.map_map, Function.comp_def, conn.afterClose]
  · simp [List.map_map, Function.comp_def, conn.afterClose]

/-- Witness of C10 on three peers of which the second fails to close. -/
theorem Close_leaves_manager_state_witness :
    threePeers.Close.outcome
        = Outcome.returned (some (GoError.multi [errCloseErr, "reset"]))
    ∧ threePeers.Close.m.connections.map Prod.fst = ["a", "b", "c"] :=
  ⟨rfl, (Close_leaves_manager_state threePeers _ rfl).2.2.2.2.2.2.2.2.1⟩

/-- C4, as stated, fails on one peer with an open connection whose close
succeeds: the first call returns nil, the second call calls close on the same
connection again, so the connection receives two close calls, and the second
call returns an aggregate holding `ErrClientConnClosing`, a failure that is
not in the first call's (nil) result. -/
theorem Close_twice_reports_new_failure :
    onePeer.Close.outcome = Outcome.returned none
    ∧ onePeer.Close.m.Close.outcome
        = Outcome.returned (some (GoError.multi [errCloseErr, ErrClientConnClosing]))
    ∧ (closeCalls (onePeer.Close.trace ++ onePeer.Close.m.Close.trace)).count "a" = 2
    ∧ ¬ (∀ e ∈ entries (some (GoError.multi [errCloseErr, ErrClientConnClosing])),
          e ∈ entries (none : Option GoError)) := by
  refine ⟨rfl, rfl, by decide, ?_⟩
  intro h
  have hmem := h ErrClientConnClosing (by simp [entries])
  simp [entries] at hmem

/-- C4, amended: on a quiescent manager whose handles all hold a connection,
two calls of `Manager.Close` in a row both return; each call calls close on
every handle of the map, so every connection receives one close call per call;
and the second call returns the aggregate of `errCloseErr` followed by one
`ErrClientConnClosing` for each handle, which is nil only when the map is
empty. -/
theorem Close_twice (m : Manager) (hq : m.quiescent = true) (he : m.established = true) :
    (∃ r, m.Close.outcome = Outcome.returned r)
    ∧ m.Close.m.Close.outcome
        = Outcome.returned
            (aggregate (List.replicate m.connections.length ErrClientConnClosing))
    ∧ closeCalls m.Close.trace = m.connections.map Prod.fst
    ∧ closeCalls m.Close.m.Close.trace = m.connections.map Prod.fst
    ∧ (m.connections ≠ [] →
        m.Close.m.Close.outcome
          = Outcome.returned (some (GoError.multi
              (errCloseErr :: List.replicate m.connections.length ErrClientConnClosing))))
    ∧ (m.connections = [] → m.Close.m.Close.outcome = Outcome.returned none) := by
  obtain ⟨hout, hm, htr⟩ := Close_ready m hq he
  obtain ⟨hq2, he2⟩ := Close_ready_after m hq he
  obtain ⟨hout2, -, htr2⟩ := Close_ready m.Close.m hq2 he2
  have hconns : m.Close.m.connections
      = m.connections.map (fun kv => (kv.1, kv.2.afterClose)) := by rw [hm]
  have hfail : closeFailures m.Close.m.connections
      = List.replicate m.connections.length ErrClientConnClosing := by
    rw [hconns]
    exact closeFailures_afterClose m.connections he
  have hsecond : m.Close.m.Close.outcome
      = Outcome.returned
          (aggregate (List.replicate m.connections.length ErrClientConnClosing)) := by
    rw [hout2, hfail]
  refine ⟨⟨_, hout⟩, hsecond, ?_, ?_, ?_, ?_⟩
  · rw [htr]
    simp [closeCalls_append, closeCalls, closeCalls_handles]
  · rw [htr2, hconns]
    simp [closeCalls_append, closeCalls, closeCalls_handles, List.map_map, Function.comp_def]
  · intro hne
    rw [hsecond]
    have : m.connections.length ≠ 0 := by simpa using hne
    simp [aggregate, List.replicate_eq_nil_iff, this]
  · intro hempty
    rw [hsecond, hempty]
    simp [aggregate]

/-- Witness of the amended C4 on three peers of which the second fails to
close. -/
theorem Close_twice_witness :
    threePeers.Close.m.Close.outcome
      = Outcome.returned (some (GoError.multi
          [errCloseErr, ErrClientConnClosing, ErrClientConnClosing, ErrClientConnClosing])) :=
  (Close_twice threePeers rfl rfl).2.2.2.2.1 (by simp [threePeers, managerWith])

/-- On a quiescent manager, a handle without a connection makes
`Manager.Close` panic. -/
theorem Close_panics_without_connection (m : Manager) (hq : m.quiescent = true)
    (he : m.established = false) : m.Close.outcome = Outcome.panicked := by
  simp only [Manager.quiescent, Bool.and_eq_true, Bool.not_eq_true'] at hq
  obtain ⟨hq1, hq2⟩ := hq
  have hloop : ∀ (conns : List (ServerID × conn)) (err : GoError),
      conns.all (fun kv => !kv.2.mtx.locked) = true →
      conns.all (fun kv => kv.2.clientConn.isSome) = false →
      (closeLoop conns err).1 = LoopExit.panicked := by
    intro conns
    induction conns with
    | nil => intro err _ h; simp at h
    | cons kv rest ih =>
      intro err hl hs
      obtain ⟨id, c⟩ := kv
      obtain ⟨mtx, cco⟩ := c
      simp only [List.all_cons, Bool.and_eq_true, Bool.not_eq_true'] at hl
      cases cco with
      | none => simp [closeLoop, hl.1]
      | some cc =>
        have hrest : rest.all (fun kv => kv.2.clientConn.isSome) = false := by
          simpa using hs
        simp only [closeLoop, hl.1, Bool.false_eq_true, if_false]
        exact ih _ hl.2 hrest
  have hx := hloop m.connections (GoError.plain errCloseErr) hq2 he
  simp [Manager.Close, hq1, hx]

/-- C5 fails on a map whose first visited handle was never dialed and whose
second handle holds an open connection: `Manager.Close` calls `Close()`
through the nil `clientConn` and panics, the established connection of the
second handle receives no close call, and the lock of the first handle is
left held. -/
theorem Close_undialed_handle_panics :
    undialedFirst.quiescent = true
    ∧ undialedFirst.Close.outcome = Outcome.panicked
    ∧ undialedFirst.Close.trace
        = [Event.lockMap, Event.lockConn "a", Event.closeCall "a", Event.unlockMap]
    ∧ closeCalls undialedFirst.Close.trace = ["a"]
    ∧ undialedFirst.Close.m.connections
        = [("a", { mtx := { locked := true }, clientConn := none }),
           ("b", dialedHandle none)] := by
  refine ⟨rfl, rfl, rfl, rfl, rfl⟩

/-! ## Lock discipline -/

theorem afterAll_append (h : Held) (a b : List Event) :
    h.afterAll (a ++ b) = (h.afterAll a).afterAll b := by
  induction a generalizing h with
  | nil => rfl
  | cons e es ih => simp [Held.afterAll, ih]

theorem disciplined_append (h : Held) (a b : List Event) :
    disciplined h (a ++ b) = (disciplined h a && disciplined (h.afterAll a) b) := by
  induction a generalizing h with
  | nil => simp [disciplined, Held.afterAll]
  | cons e es ih => simp [disciplined, Held.afterAll, ih, Bool.and_assoc]

theorem disciplined_permits (h : Held) (before : List Event) (e : Event) (after : List Event)
    (hd : disciplined h (before ++ e :: after) = true) :
    (h.afterAll before).permits e = true := by
  rw [disciplined_append] at hd
  simp only [disciplined, Bool.and_eq_true] at hd
  exact hd.2.1

theorem disciplined_at_most_one (h : Held) (tr : List Event)
    (hd : disciplined h tr = true) (hlen : h.handles.length ≤ 1) :
    ∀ before after, tr = before ++ after → (h.afterAll before).handles.length ≤ 1 := by
  induction tr generalizing h with
  | nil =>
    intro before after hsplit
    have hb : before = [] := by
      cases before with
      | nil => rfl
      | cons _ _ => simp at hsplit
    subst hb
    simpa [Held.afterAll] using hlen
  | cons e es ih =>
    intro before after hsplit
    cases before with
    | nil => simpa [Held.afterAll] using hlen
    | cons b bs =>
      simp only [List.cons_append, List.cons.injEq] at hsplit
      obtain ⟨rfl, hrest⟩ := hsplit
      simp only [disciplined, Bool.and_eq_true] at hd
      have hnext : (h.after e).handles.length ≤ 1 := by
        cases e with
        | lockMap => simpa [Held.after] using hlen
        | unlockMap => simpa [Held.after] using hlen
        | closeCall id => simpa [Held.after] using hlen
        | lockConn id =>
          have hp := hd.1
          simp only [Held.permits, Bool.and_eq_true, List.isEmpty_iff] at hp
          simp [Held.after, hp.2]
        | unlockConn id =>
          have hp := hd.1
          simp only [Held.permits, decide_eq_true_eq] at hp
          simp [Held.after, hp]
      simpa [Held.afterAll] using ih (h.after e) hd.2 hnext bs after hrest

theorem closeLoop_disciplined (conns : List (ServerID × conn)) (err : GoError) :
    disciplined { mapLock := true, handles := [] } (closeLoop conns err).2.2 = true
    ∧ (Held.afterAll { mapLock := true, handles := [] } (closeLoop conns err).2.2).mapLock = true
    ∧ (∀ e, (closeLoop conns err).1 = LoopExit.done e →
        Held.afterAll { mapLock := true, handles := [] } (closeLoop conns err).2.2
          = { mapLock := true, handles := [] }) := by
  induction conns generalizing err with
  | nil => simp [closeLoop, disciplined, Held.afterAll]
  | cons kv rest ih =>
    obtain ⟨id, c⟩ := kv
    obtain ⟨mtx, cco⟩ := c
    cases hl : mtx.locked with
    | true => simp [closeLoop, hl, disciplined, Held.afterAll]
    | false =>
      cases cco with
      | none =>
        simp [closeLoop, hl, disciplined, Held.afterAll, Held.permits, Held.after]
      | some cc =>
        obtain ⟨h1, h2, h3⟩ := ih
          (match cc.Close.2 with
            | some closeErr => multierror.Append err closeErr
            | none => err)
        simp only [closeLoop, hl, Bool.false_eq_true, if_false]
        refine ⟨?_, ?_, ?_⟩
        · simpa [disciplined, Held.permits, Held.after] using h1
        · simpa [Held.afterAll, Held.after] using h2
        · intro e he
          simpa [Held.afterAll, Held.after] using h3 e he

/-- C8: the trace of every call of `Manager.Close`, whatever the connections
map and the close outcomes, obeys the lock discipline: each handle lock is
taken while the map lock is held and no other handle lock is, so at most one
handle lock is held at any point of the trace, and each close call and handle
unlock happens under exactly that handle lock.  When the call returns, with
nil or with an error, no lock is held at the end of the trace and every mutex
of the manager is free. -/
theorem Close_lock_discipline (m : Manager) :
    disciplined Held.free m.Close.trace = true
    ∧ (∀ before id after, m.Close.trace = before ++ Event.lockConn id :: after →
        (Held.free.afterAll before).mapLock = true
        ∧ (Held.free.afterAll before).handles = [])
    ∧ (∀ before after, m.Close.trace = before ++ after →
        (Held.free.afterAll before).handles.length ≤ 1)
    ∧ (∀ r, m.Close.outcome = Outcome.returned r →
        Held.free.afterAll m.Close.trace = Held.free ∧ m.Close.m.quiescent = true) := by
  have hdisc : disciplined Held.free m.Close.trace = true := by
    obtain ⟨h1, h2, -⟩ := closeLoop_disciplined m.connections (GoError.plain errCloseErr)
    cases hl : m.connectionsMtx.locked with
    | true => simp [Manager.Close, hl, disciplined]
    | false =>
      cases hx : (closeLoop m.connections (GoError.plain errCloseErr)).1 with
      | blocked =>
        have htr : m.Close.trace
            = Event.lockMap :: (closeLoop m.connections (GoError.plain errCloseErr)).2.2 := by
          simp [Manager.Close, hl, hx]
        rw [htr]
        simpa [disciplined, Held.permits, Held.after, Held.free] using h1
      | panicked =>
        have htr : m.Close.trace
            = Event.lockMap
              :: ((closeLoop m.connections (GoError.plain errCloseErr)).2.2
                    ++ [Event.unlockMap]) := by
          simp [Manager.Close, hl, hx]
        rw [htr]
        simp only [disciplined, Held.permits, Held.after, Held.free]
        rw [disciplined_append]
        simp [h1, h2, disciplined, Held.permits]
      | done e =>
        have htr : m.Close.trace
            = Event.lockMap
              :: ((closeLoop m.connections (GoError.plain errCloseErr)).2.2
                    ++ [Event.unlockMap]) := by
          simp [Manager.Close, hl, hx]
        rw [htr]
        simp only [disciplined, Held.permits, Held.after, Held.free]
        rw [disciplined_append]
        simp [h1, h2, disciplined, Held.permits]
  refine ⟨hdisc, ?_, ?_, ?_⟩
  · intro before id after hsplit
    have hp := disciplined_permits Held.free before (Event.lockConn id) after (hsplit ▸ hdisc)
    simpa [Held.permits] using hp
  · exact disciplined_at_most_one Held.free m.Close.trace hdisc (by simp [Held.free])
  · intro r hr
    obtain ⟨hq, he⟩ := Close_returned_ready m r hr
    refine ⟨?_, ?_⟩
    · obtain ⟨-, -, h3⟩ := closeLoop_disciplined m.connections (GoError.plain errCloseErr)
      cases hl : m.connectionsMtx.locked with
      | true => simp [Manager.Close, hl] at hr
      | false =>
        simp only [Manager.Close, hl, Bool.false_eq_true, if_false] at hr
        cases hx : (closeLoop m.connections (GoError.plain errCloseErr)).1 with
        | blocked => simp [hx] at hr
        | panicked => simp [hx] at hr
        | done e =>
          have h4 := h3 e hx
          have htr : m.Close.trace
              = Event.lockMap
                :: ((closeLoop m.connections (GoError.plain errCloseErr)).2.2
                      ++ [Event.unlockMap]) := by
            simp [Manager.Close, hl, hx]
          rw [htr]
          simp only [Held.afterAll, afterAll_append, Held.after, Held.free]
          rw [h4]
    · exact (Close_ready_after m hq he).1

/-- Witness of C8 on three peers of which the second fails to close. -/
theorem Close_lock_discipline_witness :
    threePeers.Close.outcome
        = Outcome.returned (some (GoError.multi [errCloseErr, "reset"]))
    ∧ Held.free.afterAll threePeers.Close.trace = Held.free
    ∧ threePeers.Close.m.quiescent = true :=
  ⟨rfl, (Close_lock_discipline threePeers).2.2.2 _ rfl⟩

/-! ## Construction -/

theorem applyOptions_eq_foldl (m : Manager) (options : List ManagerOption) :
    applyOptions m options = options.foldl (fun m opt => opt m) m := by
  induction options generalizing m with
  | nil => rfl
  | cons opt rest ih => simp [applyOptions, ih]

theorem applyOptions_append (m : Manager) (options : List ManagerOption) (opt : ManagerOption) :
    applyOptions m (options ++ [opt]) = opt (applyOptions m options) := by
  simp [applyOptions_eq_foldl, List.foldl_append]

/-- C9: `New` is the left fold of the options, in argument order, over the
base manager of the specification, whose local address and dial options are
the arguments unchanged, whose connections map is empty, and whose heartbeat
handler is absent with a zero timeout.  With no options the result is the
base manager; an option acts on the manager built by the options before it,
so of two options that set the heartbeat timeout, or the heartbeat handler,
the later one decides the value the manager holds. -/
theorem New_eq_fold_of_options (localAddress : ServerAddress)
    (dialOptions : List DialOption) (options : List ManagerOption) :
    New localAddress dialOptions options
        = options.foldl (fun m opt => opt m) (specBaseManager localAddress dialOptions)
    ∧ New localAddress dialOptions options = specNew localAddress dialOptions options
    ∧ New localAddress dialOptions [] = specBaseManager localAddress dialOptions
    ∧ (specBaseManager localAddress dialOptions).localAddress = localAddress
    ∧ (specBaseManager localAddress dialOptions).dialOptions = dialOptions
    ∧ (specBaseManager localAddress dialOptions).connections = []
    ∧ (specBaseManager localAddress dialOptions).heartbeatFunc = none
    ∧ (specBaseManager localAddress dialOptions).heartbeatTimeout = 0
    ∧ (∀ opt, New localAddress dialOptions (options ++ [opt])
        = opt (New localAddress dialOptions options))
    ∧ (∀ d1 d2, (New localAddress dialOptions
          (options ++ [setHeartbeatTimeout d1, setHeartbeatTimeout d2])).heartbeatTimeout = d2)
    ∧ (∀ f1 f2, (New localAddress dialOptions
          (options ++ [setHeartbeatFunc f1, setHeartbeatFunc f2])).heartbeatFunc = some f2) := by
  refine ⟨?_, ?_, rfl, rfl, rfl, rfl, rfl, rfl, ?_, ?_, ?_⟩
  · simp [New, specBaseManager, applyOptions_eq_foldl]
  · simp [New, specNew, specBaseManager, applyOptions_eq_foldl]
  · intro opt
    simp [New, applyOptions_append]
  · intro d1 d2
    simp [New, applyOptions_eq_foldl, List.foldl_append, setHeartbeatTimeout]
  · intro f1 f2
    simp [New, applyOptions_eq_foldl, List.foldl_append, setHeartbeatFunc]

/-! ## The hand-off channel -/

theorem enqueueAll_unbuffered (c : Chan) (hcap : c.cap = 0) (v : RPC) (vs : List RPC) :
    c.enqueueAll (v :: vs) = none := by
  simp [Chan.enqueueAll, Chan.sendNoReceiver, hcap]

theorem applyOptions_rpcChan (m : Manager) (options : List ManagerOption)
    (hkeep : ∀ opt ∈ options, ∀ m0 : Manager, (opt m0).rpcChan = m0.rpcChan) :
    (applyOptions m options).rpcChan = m.rpcChan := by
  induction options generalizing m with
  | nil => rfl
  | cons opt rest ih =>
    simp only [applyOptions]
    rw [ih (opt m) (fun o ho => hkeep o (List.mem_cons_of_mem _ ho))]
    exact hkeep opt (List.mem_cons_self _ _) m

/-- C6, as stated, fails for n = 1: the channel that `New` creates has
capacity 0, and a single envelope cannot be enqueued on it while no consumer
receives. -/
theorem New_rpcChan_rejects_one_envelope :
    (New "10.0.0.1:7000" ["creds"] []).rpcChan.cap = 0
    ∧ (New "10.0.0.1:7000" ["creds"] []).rpcChan.enqueueAll [{ command := "AppendEntries" }]
        = none := by
  refine ⟨rfl, rfl⟩

/-- C6, amended: the hand-off channel that `New` creates is an unbuffered
channel, of capacity 0 and empty; whatever options that leave the channel in
place are passed, no envelope can be enqueued on it while no consumer
receives: every send has to wait for the engine to read, and only the empty
sequence of sends completes. -/
theorem New_rpcChan_unbuffered (localAddress : ServerAddress) (dialOptions : List DialOption)
    (options : List ManagerOption)
    (hkeep : ∀ opt ∈ options, ∀ m0 : Manager, (opt m0).rpcChan = m0.rpcChan) :
    (New localAddress dialOptions options).rpcChan = makeChan 0
    ∧ (New localAddress dialOptions options).rpcChan.cap = 0
    ∧ (∀ v, (New localAddress dialOptions options).rpcChan.sendNoReceiver v = none)
    ∧ (∀ vs, (New localAddress dialOptions options).rpcChan.enqueueAll vs ≠ none ↔ vs = []) := by
  have hchan : (New localAddress dialOptions options).rpcChan = makeChan 0 := by
    simp only [New]
    rw [applyOptions_rpcChan _ options hkeep]
  refine ⟨hchan, ?_, ?_, ?_⟩
  · rw [hchan]; rfl
  · intro v
    rw [hchan]; rfl
  · intro vs
    rw [hchan]
    cases vs with
    | nil => simp [Chan.enqueueAll]
    | cons v vs => simp [enqueueAll_unbuffered (makeChan 0) rfl v vs]

/-- Witness of the amended C6 with an option that sets the heartbeat
timeout. -/
theorem New_rpcChan_unbuffered_witness :
    (New "10.0.0.1:7000" ["creds"] [setHeartbeatTimeout 5]).rpcChan.cap = 0 :=
  (New_rpcChan_unbuffered "10.0.0.1:7000" ["creds"] [setHeartbeatTimeout 5]
    (by
      intro opt hopt m0
      simp only [List.mem_singleton] at hopt
      subst hopt
      rfl)).2.1

end Transport
